import Mathlib

/-!
Verification development for the VeghJS repository.

The repository ships `worker.js` (the off-main-thread message loop) together
with documentation of the wasm core it calls (`VeghStreamingHasher`,
`get_metadata`, `list_files`, `check_cache_hit`, `get_file_content`).  The
worker is embedded here directly from `src/worker.js`; the wasm core itself is
not part of `src/`, so its operations are modelled from the specification and
each such definition says so in its doc comment.

Bytes are modelled as natural numbers (each below 256 in well-formed data),
byte buffers as `List Nat`, and JavaScript `BigInt` values as `Int`.
-/

/-- Error taxonomy of the core, from spec §7.  A closed inductive: there is no
generic parse-error constructor, so the distinguishability demanded by the
spec is constructor inequality. -/
inductive VeghError where
  | CorruptContainer
  | UnsupportedCompression
  | UnsupportedFormatVersion
  | EntryNotFound
  | HashMismatch
  | InvalidUsage
deriving DecidableEq, Repr

/-- The `message` a caught error surfaces to the worker's ERROR response. -/
def errMessage : VeghError → String
  | VeghError.CorruptContainer => "CorruptContainer"
  | VeghError.UnsupportedCompression => "UnsupportedCompression"
  | VeghError.UnsupportedFormatVersion => "UnsupportedFormatVersion"
  | VeghError.EntryNotFound => "EntryNotFound"
  | VeghError.HashMismatch => "HashMismatch"
  | VeghError.InvalidUsage => "InvalidUsage"

/-! ## Streaming hash framework

Modelled from the spec (§4.5): the streaming integrity hasher is a resumable
accumulator over a block-structured hash algorithm.  An algorithm supplies an
inner state, a block size, a compression step consuming one full block, and a
finalisation step consuming the trailing bytes (at most one block, so that
algorithms whose last block is treated specially — as in BLAKE3 — fit).  The
accumulator buffers at most one block of pending bytes. -/
structure HashAlg where
  S : Type
  blockSize : Nat
  blockPos : 0 < blockSize
  seed : S
  compress : S → List Nat → S
  final : S → List Nat → List Nat

/-- Feed bytes to the inner state, compressing a block whenever strictly more
than one block is pending (the last full block is retained for `final`). -/
def absorb (A : HashAlg) (s : A.S) (bytes : List Nat) : A.S × List Nat :=
  if h : A.blockSize < bytes.length then
    absorb A (A.compress s (bytes.take A.blockSize)) (bytes.drop A.blockSize)
  else
    (s, bytes)
termination_by bytes.length
decreasing_by
  have hb := A.blockPos
  simp only [List.length_drop]
  omega

/-- Accumulator state: inner state plus the buffered pending bytes. -/
abbrev HashState (A : HashAlg) := A.S × List Nat

/-- `create(algorithm)` of spec §4.5. -/
def hashCreate (A : HashAlg) : HashState A := (A.seed, [])

/-- `update(chunk)` of spec §4.5: any number of calls, any chunk sizes. -/
def hashUpdate (A : HashAlg) (st : HashState A) (chunk : List Nat) : HashState A :=
  absorb A st.1 (st.2 ++ chunk)

/-- `finalize()` of spec §4.5 applied to the accumulated state. -/
def hashFinalize (A : HashAlg) (st : HashState A) : List Nat :=
  A.final st.1 st.2

/-- Hashing a whole buffer in one call: create, a single update, finalize. -/
def oneShotHash (A : HashAlg) (B : List Nat) : List Nat :=
  hashFinalize A (hashUpdate A (hashCreate A) B)

/-- Hashing via create, update on each chunk in order, finalize. -/
def streamHash (A : HashAlg) (chunks : List (List Nat)) : List Nat :=
  hashFinalize A (chunks.foldl (hashUpdate A) (hashCreate A))

/-! ## SHA-256 (format version 1 algorithm)

Modelled from the spec (§3, §4.4): format version 1 uses a 256-bit SHA-2
family hash.  This is a complete SHA-256 over byte lists, with 32-bit words
represented as naturals reduced modulo 2^32. -/

/-- Reduce to a 32-bit word. -/
def w32 (n : Nat) : Nat := n % 4294967296

/-- Right rotation of a 32-bit word (argument assumed below 2^32). -/
def rotr32 (x n : Nat) : Nat := w32 (x / 2 ^ n + x % 2 ^ n * 2 ^ (32 - n))

def bigSigma0 (x : Nat) : Nat := rotr32 x 2 ^^^ rotr32 x 13 ^^^ rotr32 x 22

def bigSigma1 (x : Nat) : Nat := rotr32 x 6 ^^^ rotr32 x 11 ^^^ rotr32 x 25

def smallSigma0 (x : Nat) : Nat := rotr32 x 7 ^^^ rotr32 x 18 ^^^ x / 2 ^ 3

def smallSigma1 (x : Nat) : Nat := rotr32 x 17 ^^^ rotr32 x 19 ^^^ x / 2 ^ 10

/-- SHA-256 round constants (FIPS 180-4, written in decimal). -/
def sha256K : List Nat :=
  [1116352408, 1899447441, 3049323471, 3921009573, 961987163,
   1508970993, 2453635748, 2870763221, 3624381080, 310598401,
   607225278, 1426881987, 1925078388, 2162078206, 2614888103,
   3248222580, 3835390401, 4022224774, 264347078, 604807628,
   770255983, 1249150122, 1555081692, 1996064986, 2554220882,
   2821834349, 2952996808, 3210313671, 3336571891, 3584528711,
   113926993, 338241895, 666307205, 773529912, 1294757372,
   1396182291, 1695183700, 1986661051, 2177026350, 2456956037,
   2730485921, 2820302411, 3259730800, 3345764771, 3516065817,
   3600352804, 4094571909, 275423344, 430227734, 506948616,
   659060556, 883997877, 958139571, 1322822218, 1537002063,
   1747873779, 1955562222, 2024104815, 2227730452, 2361852424,
   2428436474, 2756734187, 3204031479, 3329325298]

/-- SHA-256 initial hash words (FIPS 180-4, written in decimal). -/
def sha256H0 : List Nat :=
  [1779033703, 3144134277, 1013904242, 2773480762,
   1359893119, 2600822924, 528734635, 1541459225]

/-- Group bytes into 32-bit big-endian words (incomplete tail ignored). -/
def bytesToWordsBE : List Nat → List Nat
  | b0 :: b1 :: b2 :: b3 :: rest =>
      (((b0 * 256 + b1) * 256 + b2) * 256 + b3) :: bytesToWordsBE rest
  | _ => []

/-- Extend 16 message-schedule words to 64. -/
def sha256Extend (ws : Array Nat) : Array Nat :=
  (List.range 48).foldl
    (fun a i =>
      a.push (w32 (smallSigma1 a[i + 14]! + a[i + 9]! + smallSigma0 a[i + 1]! + a[i]!)))
    ws

/-- One SHA-256 round on the working variables; `kw` is Kt + Wt reduced. -/
def sha256Round (st : List Nat) (kw : Nat) : List Nat :=
  match st with
  | [a, b, c, d, e, f, g, h] =>
      let t1 := w32 (h + bigSigma1 e + ((e &&& f) ^^^ ((4294967295 - e) &&& g)) + kw)
      let t2 := w32 (bigSigma0 a + ((a &&& b) ^^^ (a &&& c) ^^^ (b &&& c)))
      [w32 (t1 + t2), a, b, c, w32 (d + t1), e, f, g]
  | other => other

/-- SHA-256 compression of one 64-byte block into the hash words. -/
def sha256Compress (hs : List Nat) (block : List Nat) : List Nat :=
  let ws := sha256Extend (Array.mk (bytesToWordsBE block))
  let kws := (List.range 64).map (fun t => w32 (sha256K[t]! + ws[t]!))
  let fin := kws.foldl sha256Round hs
  (List.range 8).map (fun i => w32 (hs[i]! + fin[i]!))

/-- Big-endian encoding of `n` into `k` bytes. -/
def beBytes (k n : Nat) : List Nat :=
  (List.range k).map (fun i => n / 2 ^ (8 * (k - 1 - i)) % 256)

/-- Little-endian encoding of `n` into `k` bytes. -/
def leBytes (k n : Nat) : List Nat :=
  (List.range k).map (fun i => n / 2 ^ (8 * i) % 256)

/-- SHA-256 padding appended after a message of `total` bytes. -/
def sha256PadSuffix (total : Nat) : List Nat :=
  128 :: (List.replicate ((64 - (total + 9) % 64) % 64) 0 ++ beBytes 8 (total * 8))

/-- Compress every complete 64-byte block of `msg`. -/
def sha256Blocks (hs : List Nat) (msg : List Nat) : List Nat :=
  if h : 64 ≤ msg.length then sha256Blocks (sha256Compress hs (msg.take 64)) (msg.drop 64)
  else hs
termination_by msg.length
decreasing_by
  simp only [List.length_drop]
  omega

/-- The format-version-1 algorithm: full SHA-256.  Inner state is the eight
hash words together with the count of bytes already compressed. -/
def sha256Alg : HashAlg where
  S := List Nat × Nat
  blockSize := 64
  blockPos := by decide
  seed := (sha256H0, 0)
  compress := fun s block => (sha256Compress s.1 block, s.2 + 64)
  final := fun s rest =>
    ((sha256Blocks s.1 (rest ++ sha256PadSuffix (s.2 + rest.length))).map
      (fun wrd => beBytes 4 wrd)).flatten

/-! ## BLAKE3-class hash (format version 2 algorithm)

Modelled from the spec (§3, §4.4): format version 2 uses a 256-bit fast
BLAKE3-family hash; the Rust core implementing it is not part of `src/`.
This model uses the genuine BLAKE3 compression function, message permutation
and flag scheme in single-chain (one chunk) mode, which coincides with real
BLAKE3 on inputs of at most 1024 bytes; the multi-chunk tree of the absent
core is not reproduced. -/

/-- BLAKE3 initialisation vector words (the SHA-256 initial hash words). -/
def b3IV : List Nat :=
  [1779033703, 3144134277, 1013904242, 2773480762,
   1359893119, 2600822924, 528734635, 1541459225]

/-- Group bytes into 32-bit little-endian words (incomplete tail ignored). -/
def bytesToWordsLE : List Nat → List Nat
  | b0 :: b1 :: b2 :: b3 :: rest =>
      (b0 + 256 * (b1 + 256 * (b2 + 256 * b3))) :: bytesToWordsLE rest
  | _ => []

/-- The BLAKE3 quarter-round G on state positions `ia ib ic idd` with message
words `mx my`. -/
def b3g (st : Array Nat) (ia ib ic idd mx my : Nat) : Array Nat :=
  let a0 := w32 (st[ia]! + st[ib]! + mx)
  let d0 := rotr32 (st[idd]! ^^^ a0) 16
  let c0 := w32 (st[ic]! + d0)
  let b0 := rotr32 (st[ib]! ^^^ c0) 12
  let a1 := w32 (a0 + b0 + my)
  let d1 := rotr32 (d0 ^^^ a1) 8
  let c1 := w32 (c0 + d1)
  let b1 := rotr32 (b0 ^^^ c1) 7
  ((((st.set! ia a1).set! ib b1).set! ic c1).set! idd d1)

/-- One BLAKE3 round: four column steps then four diagonal steps. -/
def b3round (st m : Array Nat) : Array Nat :=
  let st := b3g st 0 4 8 12 m[0]! m[1]!
  let st := b3g st 1 5 9 13 m[2]! m[3]!
  let st := b3g st 2 6 10 14 m[4]! m[5]!
  let st := b3g st 3 7 11 15 m[6]! m[7]!
  let st := b3g st 0 5 10 15 m[8]! m[9]!
  let st := b3g st 1 6 11 12 m[10]! m[11]!
  let st := b3g st 2 7 8 13 m[12]! m[13]!
  b3g st 3 4 9 14 m[14]! m[15]!

/-- The BLAKE3 message word permutation applied between rounds. -/
def b3permute (m : Array Nat) : Array Nat :=
  Array.mk ([2, 6, 3, 10, 7, 0, 4, 13, 1, 11, 12, 5, 9, 14, 15, 8].map (fun i => m[i]!))

/-- The BLAKE3 compression function, returning the new chaining value. -/
def b3compress (cv block : List Nat) (counter blockLen flags : Nat) : List Nat :=
  let m0 := Array.mk (bytesToWordsLE block)
  let st0 := Array.mk (cv ++
    [1779033703, 3144134277, 1013904242, 2773480762,
     counter % 4294967296, counter / 4294967296 % 4294967296, blockLen, flags])
  let p := (List.range 7).foldl
    (fun (p : Array Nat × Array Nat) _ => (b3round p.1 p.2, b3permute p.2)) (st0, m0)
  (List.range 8).map (fun i => p.1[i]! ^^^ p.1[i + 8]!)

/-- Flag bits: CHUNK_START = 1, CHUNK_END = 2, ROOT = 8. -/
def b3ChunkStart : Nat := 1

def b3ChunkEnd : Nat := 2

def b3Root : Nat := 8

/-- The format-version-2 algorithm: BLAKE3-class, single-chain mode.  Inner
state is the chaining value plus whether any block has been compressed. -/
def blake3ClassAlg : HashAlg where
  S := List Nat × Bool
  blockSize := 64
  blockPos := by decide
  seed := (b3IV, false)
  compress := fun s block =>
    (b3compress s.1 block 0 64 (if s.2 then 0 else b3ChunkStart), true)
  final := fun s rest =>
    let flags := (if s.2 then 0 else b3ChunkStart) + b3ChunkEnd + b3Root
    let cv := b3compress s.1 (rest ++ List.replicate (64 - rest.length) 0) 0 rest.length flags
    (cv.map (fun wrd => leBytes 4 wrd)).flatten

/-! ## Streaming hasher object

Modelled from the spec (§4.5, §7): the wasm `VeghStreamingHasher` bound by
`worker.js` is not part of `src/`.  Per the spec, `finalize` consumes the
accumulator and any later operation on the consumed accumulator must fail
fast; the failure is the spec's `InvalidUsage`.  The README fixes the
worker's streaming algorithm as the format-version-2 (BLAKE3-class) one. -/
structure VeghStreamingHasher where
  consumed : Bool
  st : HashState blake3ClassAlg

/-- `new VeghStreamingHasher()`. -/
def VeghStreamingHasher.new : VeghStreamingHasher :=
  ⟨false, hashCreate blake3ClassAlg⟩

/-- `hasher.update(value)`. -/
def VeghStreamingHasher.update (h : VeghStreamingHasher) (chunk : List Nat) :
    Except VeghError VeghStreamingHasher :=
  if h.consumed then Except.error VeghError.InvalidUsage
  else Except.ok ⟨false, hashUpdate blake3ClassAlg h.st chunk⟩

/-- `hasher.finalize()`: yields the digest and the consumed accumulator. -/
def VeghStreamingHasher.finalize (h : VeghStreamingHasher) :
    Except VeghError (List Nat × VeghStreamingHasher) :=
  if h.consumed then Except.error VeghError.InvalidUsage
  else Except.ok (hashFinalize blake3ClassAlg h.st, ⟨true, h.st⟩)

/-- `hasher.free()`. -/
def VeghStreamingHasher.free (h : VeghStreamingHasher) : Except VeghError Unit :=
  if h.consumed then Except.error VeghError.InvalidUsage
  else Except.ok ()

/-! ## Cache index and matcher

Modelled from the spec (§3, §4.6): the wasm `check_cache_hit` bound by
`worker.js` is not part of `src/`.  A `VeghCache` maps paths to recorded
`(size, modifiedTime, digest)` entries; `check_cache_hit` is a pure attribute
comparison.  Sizes and times are the worker's `BigInt` values, so `Int`. -/
structure FileCacheEntry where
  size : Int
  modifiedTime : Int
  digest : Option (List Nat)
deriving DecidableEq, Repr

/-- The cache: a finite mapping from path to entry, keys unique. -/
structure VeghCache where
  files : List (String × FileCacheEntry)
deriving DecidableEq, Repr

/-- `check_cache_hit(cache, path, size, modified)`: true iff an entry exists
for `path` and both recorded attributes equal the observed ones. -/
def check_cache_hit (cache : VeghCache) (path : String) (size modified : Int) : Bool :=
  match cache.files.lookup path with
  | some entry => entry.size == size && entry.modifiedTime == modified
  | none => false

/-! ## Container header, metadata and listing

Modelled from the spec (§3, §4.1–§4.4, §6): the wasm `get_metadata`,
`list_files` and `get_file_content` are not part of `src/`.  The spec leaves
exact field widths to the implementation, so this model pins a concrete
layout: 4 magic bytes, a 1-byte format version, then (for the implemented
versions) a length-prefixed author, a length-prefixed comment, and the body;
the body is a 1-byte compression marker followed by the archive, a sequence
of entries each being a length-prefixed path, a 1-byte payload length and the
payload bytes.  The format version is gated against {1, 2} as soon as it is
read, before any layout- or body-dependent work, per §4.4. -/

/-- Header metadata record (author and comment kept as raw bytes). -/
structure Metadata where
  format_version : Nat
  author : List Nat
  comment : List Nat
deriving DecidableEq, Repr

/-- The container magic bytes. -/
def veghMagic : List Nat := [0x56, 0x45, 0x47, 0x48]

/-- Read the magic and the declared format version. -/
def parseVersion (bytes : List Nat) : Except VeghError (Nat × List Nat) :=
  if bytes.take 4 = veghMagic then
    match bytes.drop 4 with
    | v :: rest => Except.ok (v, rest)
    | [] => Except.error VeghError.CorruptContainer
  else Except.error VeghError.CorruptContainer

/-- Read one length-prefixed field. -/
def readLenBytes (bytes : List Nat) : Except VeghError (List Nat × List Nat) :=
  match bytes with
  | [] => Except.error VeghError.CorruptContainer
  | n :: rest =>
      if n ≤ rest.length then Except.ok (rest.take n, rest.drop n)
      else Except.error VeghError.CorruptContainer

/-- Parse the whole header: magic, version (gated against {1, 2}), author,
comment; returns the metadata and the remaining body bytes. -/
def parseHeader (bytes : List Nat) : Except VeghError (Metadata × List Nat) :=
  match parseVersion bytes with
  | Except.error e => Except.error e
  | Except.ok (v, rest) =>
      if v = 1 ∨ v = 2 then
        match readLenBytes rest with
        | Except.error e => Except.error e
        | Except.ok (author, rest2) =>
            match readLenBytes rest2 with
            | Except.error e => Except.error e
            | Except.ok (comment, body) => Except.ok (⟨v, author, comment⟩, body)
      else Except.error VeghError.UnsupportedFormatVersion

/-- `get_metadata(bytes)`: header-only read, per spec §4.3. -/
def get_metadata (bytes : List Nat) : Except VeghError Metadata :=
  match parseHeader bytes with
  | Except.error e => Except.error e
  | Except.ok (meta, _) => Except.ok meta

/-- First byte of the zstd frame magic, used as the compression marker. -/
def zstdMarker : Nat := 0x28

/-- Strip the compression framing from the body, per spec §4.1. -/
def decompressBody (body : List Nat) : Except VeghError (List Nat) :=
  match body with
  | m :: rest =>
      if m = zstdMarker then Except.ok rest
      else Except.error VeghError.UnsupportedCompression
  | [] => Except.error VeghError.CorruptContainer

/-- One archive entry: path and payload bytes. -/
structure ArchiveEntry where
  path : String
  data : List Nat
deriving DecidableEq, Repr

/-- Decode path bytes to a string. -/
def pathOfBytes (bytes : List Nat) : String :=
  String.mk (bytes.map Char.ofNat)

/-- Parse the decompressed archive into its ordered entries. -/
def parseEntries (bytes : List Nat) : Except VeghError (List ArchiveEntry) :=
  match bytes with
  | [] => Except.ok []
  | n :: rest =>
      if n + 1 ≤ rest.length then
        let path := pathOfBytes (rest.take n)
        let sz := (rest.drop n).headD 0
        let afterSz := rest.drop (n + 1)
        if sz ≤ afterSz.length then
          match parseEntries (afterSz.drop sz) with
          | Except.error e => Except.error e
          | Except.ok es => Except.ok (⟨path, afterSz.take sz⟩ :: es)
        else Except.error VeghError.CorruptContainer
      else Except.error VeghError.CorruptContainer
termination_by bytes.length
decreasing_by
  simp only [List.length_drop, List.length_cons]
  omega

/-- Parse header and body into the archive entries, rejecting duplicate
paths as a format violation (spec §4.2). -/
def parseArchive (bytes : List Nat) : Except VeghError (List ArchiveEntry) :=
  match parseHeader bytes with
  | Except.error e => Except.error e
  | Except.ok (_, body) =>
      match decompressBody body with
      | Except.error e => Except.error e
      | Except.ok raw =>
          match parseEntries raw with
          | Except.error e => Except.error e
          | Except.ok es =>
              if (es.map ArchiveEntry.path).Nodup then Except.ok es
              else Except.error VeghError.CorruptContainer

/-- `list_files(bytes)`: the ordered `(path, size)` listing. -/
def list_files (bytes : List Nat) : Except VeghError (List (String × Nat)) :=
  match parseArchive bytes with
  | Except.error e => Except.error e
  | Except.ok es => Except.ok (es.map (fun en => (en.path, en.data.length)))

/-- `get_file_content(bytes, path)`: payload of the entry at `path`. -/
def get_file_content (bytes : List Nat) (target : String) : Except VeghError (List Nat) :=
  match parseArchive bytes with
  | Except.error e => Except.error e
  | Except.ok es =>
      match es.find? (fun en => en.path == target) with
      | some en => Except.ok en.data
      | none => Except.error VeghError.EntryNotFound

/-- A well-formed container with declared version `v`. -/
def mkContainer (v : Nat) (author comment body : List Nat) : List Nat :=
  veghMagic ++ v :: author.length :: (author ++ comment.length :: (comment ++ body))

/-! ## The worker (`src/worker.js`)

The worker is embedded directly from the source.  An incoming message is
`{command, payload}`; payload fields the caller did not supply are `none`
(JavaScript `undefined`).  A `File` is its `size` attribute, the sequence of
outcomes its stream reader yields (a chunk, or a read failure), and the
outcome of `arrayBuffer()`.  The worker's observable behaviour is the list of
messages it posts; an exception escaping a handler is the `some` error that
`onmessage`'s catch turns into a terminal ERROR message. -/

deriving instance DecidableEq for Except

structure VFile where
  size : Nat
  reads : List (Except String (List Nat))
  buffer : Except String (List Nat)
deriving DecidableEq

structure InPayload where
  file : Option VFile
  chunkSize : Option Nat
  cacheObj : Option VeghCache
  cache : Option VeghCache
  path : Option String
  size : Option Int
  modified : Option Int
deriving DecidableEq

structure InMsg where
  command : String
  payload : InPayload
deriving DecidableEq

/-- Messages the worker posts. -/
inductive WMsg where
  | ready
  | progress (task : String) (value : ℚ)
  | resultIntegrity (digest : List Nat)
  | resultMetadata (meta : Metadata)
  | resultFiles (files : List (String × Nat))
  | resultCacheHit (hit : Bool)
  | resultFileContent (path : String) (data : List Nat)
  | error (message : String)
deriving DecidableEq, Repr

/-- Whether a posted message is a PROGRESS message. -/
def WMsg.isProgress : WMsg → Bool
  | WMsg.progress _ _ => true
  | _ => false

/-- The read-update-post loop of `handleIntegrityStream` (worker.js:71-81)
together with its finalize step (worker.js:83-86): each successful read
updates the hasher, advances `loadedBytes` and posts a PROGRESS message with
`progress = loadedBytes / totalBytes * 100`; a failed read throws; at end of
stream the digest is finalized and RESULT_INTEGRITY posted.  The `finally`
block frees an unconsumed hasher, which posts nothing. -/
def streamLoop (total : Nat) (reads : List (Except String (List Nat)))
    (hasher : VeghStreamingHasher) (loaded : Nat) : List WMsg × Option String :=
  match reads with
  | [] =>
      match hasher.finalize with
      | Except.ok (digest, _) => ([WMsg.resultIntegrity digest], none)
      | Except.error e => ([], some (errMessage e))
  | Except.ok chunk :: rest =>
      match hasher.update chunk with
      | Except.ok h' =>
          let out := streamLoop total rest h' (loaded + chunk.length)
          (WMsg.progress "integrity_blake3"
              ((((loaded + chunk.length : Nat) : ℚ) / (total : ℚ)) * 100) :: out.1,
            out.2)
      | Except.error e => ([], some (errMessage e))
  | Except.error e :: _ => ([], some e)

/-- `handleIntegrityStream(file, chunkSize = 5 * 1024 * 1024)` from
worker.js:64-93.  The chunkSize parameter (defaulted when the payload does
not carry one) is bound and then never used, exactly as in the source. -/
def handleIntegrityStream (file : VFile) (ocs : Option Nat) : List WMsg × Option String :=
  let chunkSize := ocs.getD (5 * 1024 * 1024)
  streamLoop file.size file.reads VeghStreamingHasher.new 0

/-- `handleMetadata(file)` from worker.js:95-99. -/
def handleMetadata (file : VFile) : List WMsg × Option String :=
  match file.buffer with
  | Except.error e => ([], some e)
  | Except.ok buf =>
      match get_metadata buf with
      | Except.ok meta => ([WMsg.resultMetadata meta], none)
      | Except.error e => ([], some (errMessage e))

/-- `handleListFiles(file)` from worker.js:101-105. -/
def handleListFiles (file : VFile) : List WMsg × Option String :=
  match file.buffer with
  | Except.error e => ([], some e)
  | Except.ok buf =>
      match list_files buf with
      | Except.ok files => ([WMsg.resultFiles files], none)
      | Except.error e => ([], some (errMessage e))

/-- `handleGetFileContent(file, targetPath)` from worker.js:108-120. -/
def handleGetFileContent (file : VFile) (target : String) : List WMsg × Option String :=
  match file.buffer with
  | Except.error e => ([], some e)
  | Except.ok buf =>
      match get_file_content buf target with
      | Except.ok data => ([WMsg.resultFileContent target data], none)
      | Except.error e => ([], some (errMessage e))

/-- A missing payload field observed by the handlers: accessing it throws
(`TypeError` on `undefined.stream()` and the like). -/
def typeErrorMessage : String := "TypeError: undefined"

/-- The command dispatch inside the worker's try block (worker.js:27-59).
`CHECK_CACHE` reads `payload.cacheObj` (worker.js:44-46); an absent
`cacheObj`, `path`, `size` or `modified` makes the underlying call throw (the
spec's InvalidUsage for a malformed cache argument). -/
def dispatch (m : InMsg) : List WMsg × Option String :=
  match m.command with
  | "CHECK_INTEGRITY_STREAM" =>
      match m.payload.file with
      | some f => handleIntegrityStream f m.payload.chunkSize
      | none => ([], some typeErrorMessage)
  | "GET_METADATA" =>
      match m.payload.file with
      | some f => handleMetadata f
      | none => ([], some typeErrorMessage)
  | "LIST_FILES" =>
      match m.payload.file with
      | some f => handleListFiles f
      | none => ([], some typeErrorMessage)
  | "CHECK_CACHE" =>
      match m.payload.cacheObj, m.payload.path, m.payload.size, m.payload.modified with
      | some c, some p, some s, some t =>
          ([WMsg.resultCacheHit (check_cache_hit c p s t)], none)
      | _, _, _, _ => ([], some (errMessage VeghError.InvalidUsage))
  | "GET_FILE_CONTENT" =>
      match m.payload.file, m.payload.path with
      | some f, some p => handleGetFileContent f p
      | _, _ => ([], some typeErrorMessage)
  | other => ([WMsg.error ("Unknown command: " ++ other)], none)

/-- `self.onmessage` (worker.js:19-62): before the wasm core is ready every
message is answered with a single ERROR and nothing is dispatched; once
ready, the command is dispatched inside try/catch and a caught exception is
posted as a terminal ERROR after whatever the handler already posted. -/
def onmessage (isReady : Bool) (m : InMsg) : List WMsg :=
  if isReady then
    match dispatch m with
    | (msgs, none) => msgs
    | (msgs, some e) => msgs ++ [WMsg.error e]
  else [WMsg.error "Core not ready yet. Please wait."]

/-- The PROGRESS values carried by a posted message list, in order. -/
def progressValues : List WMsg → List ℚ
  | [] => []
  | WMsg.progress _ v :: rest => v :: progressValues rest
  | _ :: rest => progressValues rest

/-- Lengths of the chunks the stream yields before its first failure. -/
def okLens : List (Except String (List Nat)) → List Nat
  | Except.ok c :: rest => c.length :: okLens rest
  | _ => []

/-- Running totals of a list of counts, starting from `acc`. -/
def runningTotals (acc : Nat) : List Nat → List Nat
  | [] => []
  | n :: rest => (acc + n) :: runningTotals (acc + n) rest

/-! ## Theorems -/

/-- Unfolding equation for `absorb`. -/
theorem absorb_spec (A : HashAlg) (s : A.S) (bytes : List Nat) :
    absorb A s bytes =
      if A.blockSize < bytes.length then
        absorb A (A.compress s (bytes.take A.blockSize)) (bytes.drop A.blockSize)
      else (s, bytes) := by
  rw [absorb.eq_def]
  split <;> simp_all

theorem absorb_of_lt (A : HashAlg) (s : A.S) (bytes : List Nat)
    (h : A.blockSize < bytes.length) :
    absorb A s bytes =
      absorb A (A.compress s (bytes.take A.blockSize)) (bytes.drop A.blockSize) := by
  rw [absorb_spec, if_pos h]

theorem absorb_of_ge (A : HashAlg) (s : A.S) (bytes : List Nat)
    (h : ¬ A.blockSize < bytes.length) : absorb A s bytes = (s, bytes) := by
  rw [absorb_spec, if_neg h]

/-- The buffered tail never exceeds one block. -/
theorem absorb_buf_le (A : HashAlg) (s : A.S) (bytes : List Nat) :
    (absorb A s bytes).2.length ≤ A.blockSize := by
  induction s, bytes using absorb.induct A with
  | case1 s bytes h ih =>
      rw [absorb_of_lt A s bytes h]
      exact ih
  | case2 s bytes h =>
      rw [absorb_of_ge A s bytes h]
      exact Nat.le_of_not_lt h

/-- Absorbing `b1` and then `b2` equals absorbing `b1 ++ b2`. -/
theorem absorb_append (A : HashAlg) (s : A.S) (b1 b2 : List Nat) :
    absorb A (absorb A s b1).1 ((absorb A s b1).2 ++ b2) = absorb A s (b1 ++ b2) := by
  induction s, b1 using absorb.induct A with
  | case1 s b1 h ih =>
      rw [absorb_of_lt A s b1 h]
      rw [ih]
      rw [absorb_of_lt A s (b1 ++ b2) (by simp only [List.length_append]; omega)]
      rw [List.take_append_eq_append_take, List.drop_append_eq_append_drop]
      rw [Nat.sub_eq_zero_of_le (Nat.le_of_lt h)]
      simp
  | case2 s b1 h =>
      rw [absorb_of_ge A s b1 h]

/-- Folding updates over chunks absorbs their concatenation. -/
theorem foldl_hashUpdate_eq (A : HashAlg) (chunks : List (List Nat)) :
    ∀ (s : A.S) (buf : List Nat), buf.length ≤ A.blockSize →
      chunks.foldl (hashUpdate A) (s, buf) = absorb A s (buf ++ chunks.flatten) := by
  induction chunks with
  | nil =>
      intro s buf hb
      simp only [List.foldl_nil, List.flatten_nil, List.append_nil]
      rw [absorb_of_ge A s buf (by omega)]
  | cons c cs ih =>
      intro s buf hb
      simp only [List.foldl_cons, List.flatten_cons]
      have h1 : hashUpdate A (s, buf) c = absorb A s (buf ++ c) := rfl
      rw [h1]
      rcases hx : absorb A s (buf ++ c) with ⟨s', buf'⟩
      have hlen : buf'.length ≤ A.blockSize := by
        have := absorb_buf_le A s (buf ++ c)
        rw [hx] at this
        exact this
      rw [ih s' buf' hlen]
      have h2 := absorb_append A s (buf ++ c) cs.flatten
      rw [hx] at h2
      rw [h2, List.append_assoc]

/-- Streaming over any chunking equals the one-call hash, for every
block-structured algorithm. -/
theorem streamHash_eq_oneShot (A : HashAlg) (chunks : List (List Nat)) :
    streamHash A chunks = oneShotHash A chunks.flatten := by
  unfold streamHash oneShotHash hashCreate
  rw [foldl_hashUpdate_eq A chunks A.seed [] (by simp)]
  rfl

/-- C1: for every byte buffer B and every way of splitting B into consecutive
chunks (including the empty split, a single chunk, and many one-byte chunks),
the digest obtained by create, then update on each chunk in order, then
finalize, equals the digest of hashing B in one call, for both supported hash
algorithms (SHA-256 for format version 1, BLAKE3-class for format version 2).
Quantifying over the chunk list and taking B to be its concatenation covers
every buffer and every split of it. -/
theorem c1_streaming_eq_oneshot (chunks : List (List Nat)) :
    streamHash sha256Alg chunks = oneShotHash sha256Alg chunks.flatten ∧
    streamHash blake3ClassAlg chunks = oneShotHash blake3ClassAlg chunks.flatten :=
  ⟨streamHash_eq_oneShot sha256Alg chunks, streamHash_eq_oneShot blake3ClassAlg chunks⟩

/-- Looking a key up in an association list with distinct keys finds exactly
the pairs that are members. -/
theorem lookup_eq_some_iff_mem (l : List (String × FileCacheEntry)) (p : String)
    (e : FileCacheEntry) (hnd : (l.map Prod.fst).Nodup) :
    l.lookup p = some e ↔ (p, e) ∈ l := by
  induction l with
  | nil => simp [List.lookup]
  | cons kv rest ih =>
      obtain ⟨k, v⟩ := kv
      rw [List.map_cons, List.nodup_cons] at hnd
      by_cases hk : p = k
      · subst hk
        rw [List.lookup_cons_self]
        simp only [List.mem_cons, Prod.mk.injEq, Option.some.injEq, true_and]
        constructor
        · intro hv
          exact Or.inl hv.symm
        · rintro (hv | hmem)
          · exact hv.symm
          · exact absurd (List.mem_map_of_mem Prod.fst hmem) hnd.1
      · have hbeq : (p == k) = false := beq_eq_false_iff_ne.mpr hk
        simp only [List.lookup, hbeq, List.mem_cons, Prod.mk.injEq]
        rw [ih hnd.2]
        constructor
        · exact Or.inr
        · rintro (⟨hpk, -⟩ | hmem)
          · exact absurd hpk hk
          · exact hmem

/-- C2: for every cache with distinct recorded paths, `check_cache_hit`
returns true iff the cache contains an entry for the path whose recorded size
and modified time both equal the observed ones; any mismatch, including an
absent path, yields false. -/
theorem c2_checkHit_iff (cache : VeghCache) (p : String) (s t : Int)
    (hnd : (cache.files.map Prod.fst).Nodup) :
    check_cache_hit cache p s t = true ↔
      ∃ e, (p, e) ∈ cache.files ∧ e.size = s ∧ e.modifiedTime = t := by
  unfold check_cache_hit
  rcases hlk : cache.files.lookup p with - | e
  · simp only [Bool.false_eq_true, false_iff]
    rintro ⟨e, hmem, -, -⟩
    rw [(lookup_eq_some_iff_mem cache.files p e hnd).mpr hmem] at hlk
    exact Option.noConfusion hlk
  · simp only [Bool.and_eq_true, beq_iff_eq]
    constructor
    · rintro ⟨hs, ht⟩
      exact ⟨e, (lookup_eq_some_iff_mem cache.files p e hnd).mp hlk, hs, ht⟩
    · rintro ⟨e', hmem, hs, ht⟩
      have : cache.files.lookup p = some e' :=
        (lookup_eq_some_iff_mem cache.files p e' hnd).mpr hmem
      rw [hlk] at this
      cases this
      exact ⟨hs, ht⟩

/-- The spec's scenario cache: one entry for x.txt with size 100 and
modified time 5000. -/
def scenarioCache : VeghCache := ⟨[("x.txt", ⟨100, 5000, none⟩)]⟩

/-- Witness for C2 at the spec's scenario cache. -/
theorem c2_checkHit_iff_witness :
    (scenarioCache.files.map Prod.fst).Nodup ∧
      (check_cache_hit scenarioCache "x.txt" 100 5000 = true ↔
        ∃ e, ("x.txt", e) ∈ scenarioCache.files ∧ e.size = 100 ∧ e.modifiedTime = 5000) :=
  ⟨by simp [scenarioCache],
    c2_checkHit_iff scenarioCache "x.txt" 100 5000 (by simp [scenarioCache])⟩

/-- C3: for every container whose header is well-formed but whose declared
format version is not 1 or 2, metadata reading and file listing both fail
with UnsupportedFormatVersion, which is a different error from
CorruptContainer; no other (generic) parse error exists in the closed error
type. -/
theorem c3_version_gate (v : Nat) (author comment body : List Nat)
    (h1 : v ≠ 1) (h2 : v ≠ 2) :
    get_metadata (mkContainer v author comment body) =
        Except.error VeghError.UnsupportedFormatVersion ∧
      list_files (mkContainer v author comment body) =
        Except.error VeghError.UnsupportedFormatVersion ∧
      VeghError.UnsupportedFormatVersion ≠ VeghError.CorruptContainer := by
  have hmagic : (mkContainer v author comment body).take 4 = veghMagic := by
    have h4 : veghMagic.length = 4 := rfl
    rw [mkContainer, ← h4, List.take_left]
  have hdrop : (mkContainer v author comment body).drop 4 =
      v :: author.length :: (author ++ comment.length :: (comment ++ body)) := by
    have h4 : veghMagic.length = 4 := rfl
    rw [mkContainer, ← h4, List.drop_left]
  have hver : parseVersion (mkContainer v author comment body) =
      Except.ok (v, author.length :: (author ++ comment.length :: (comment ++ body))) := by
    rw [parseVersion, if_pos hmagic, hdrop]
  have hgate : (v = 1 ∨ v = 2) = False := by
    simp [h1, h2]
  have hhdr : parseHeader (mkContainer v author comment body) =
      Except.error VeghError.UnsupportedFormatVersion := by
    rw [parseHeader, hver]
    simp [hgate]
  refine ⟨?_, ?_, by decide⟩
  · rw [get_metadata, hhdr]
  · rw [list_files, parseArchive, hhdr]

/-- Witness for C3 at the declared version 99. -/
theorem c3_version_gate_witness :
    get_metadata (mkContainer 99 [] [] []) =
        Except.error VeghError.UnsupportedFormatVersion ∧
      list_files (mkContainer 99 [] [] []) =
        Except.error VeghError.UnsupportedFormatVersion ∧
      VeghError.UnsupportedFormatVersion ≠ VeghError.CorruptContainer :=
  c3_version_gate 99 [] [] [] (by decide) (by decide)

/-- C6: finalizing a live hasher consumes it, and every subsequent operation
on the consumed accumulator — update, finalize or free — fails fast with
InvalidUsage instead of silently succeeding. -/
theorem c6_finalize_consumes (h : VeghStreamingHasher) (hlive : h.consumed = false) :
    ∃ d h', h.finalize = Except.ok (d, h') ∧ h'.consumed = true ∧
      (∀ c, h'.update c = Except.error VeghError.InvalidUsage) ∧
      h'.finalize = Except.error VeghError.InvalidUsage ∧
      h'.free = Except.error VeghError.InvalidUsage := by
  refine ⟨hashFinalize blake3ClassAlg h.st, ⟨true, h.st⟩, ?_, rfl, ?_, ?_, ?_⟩
  · rw [VeghStreamingHasher.finalize, hlive]
    rfl
  · intro c
    rfl
  · rfl
  · rfl

/-- Witness for C6 at a freshly created hasher. -/
theorem c6_finalize_consumes_witness :
    VeghStreamingHasher.new.consumed = false ∧
      ∃ d h', VeghStreamingHasher.new.finalize = Except.ok (d, h') ∧ h'.consumed = true ∧
        (∀ c, h'.update c = Except.error VeghError.InvalidUsage) ∧
        h'.finalize = Except.error VeghError.InvalidUsage ∧
        h'.free = Except.error VeghError.InvalidUsage :=
  ⟨rfl, c6_finalize_consumes VeghStreamingHasher.new rfl⟩

/-- Updating a live hasher succeeds and keeps it live. -/
theorem update_of_live (h : VeghStreamingHasher) (chunk : List Nat)
    (hlive : h.consumed = false) :
    h.update chunk = Except.ok ⟨false, hashUpdate blake3ClassAlg h.st chunk⟩ := by
  rw [VeghStreamingHasher.update, hlive]
  rfl

/-- The stream loop either posts progress messages followed by a single
RESULT_INTEGRITY and no pending exception, or posts only progress messages
and a pending exception. -/
theorem streamLoop_shape (total : Nat) (reads : List (Except String (List Nat))) :
    ∀ (h : VeghStreamingHasher) (loaded : Nat), h.consumed = false →
      (∃ ps d, (∀ p ∈ ps, p.isProgress = true) ∧
          streamLoop total reads h loaded = (ps ++ [WMsg.resultIntegrity d], none)) ∨
      (∃ ps e, (∀ p ∈ ps, p.isProgress = true) ∧
          streamLoop total reads h loaded = (ps, some e)) := by
  induction reads with
  | nil =>
      intro h loaded hlive
      left
      refine ⟨[], hashFinalize blake3ClassAlg h.st, by simp, ?_⟩
      simp [streamLoop, VeghStreamingHasher.finalize, hlive]
  | cons r rest ih =>
      intro h loaded hlive
      match r with
      | Except.ok chunk =>
          rcases ih ⟨false, hashUpdate blake3ClassAlg h.st chunk⟩ (loaded + chunk.length) rfl
            with ⟨ps, d, hps, heq⟩ | ⟨ps, e, hps, heq⟩
          · left
            refine ⟨WMsg.progress "integrity_blake3"
                ((((loaded + chunk.length : Nat) : ℚ) / (total : ℚ)) * 100) :: ps, d, ?_, ?_⟩
            · intro p hp
              rcases List.mem_cons.mp hp with hp | hp
              · rw [hp]; rfl
              · exact hps p hp
            · simp [streamLoop, update_of_live h chunk hlive, heq]
          · right
            refine ⟨WMsg.progress "integrity_blake3"
                ((((loaded + chunk.length : Nat) : ℚ) / (total : ℚ)) * 100) :: ps, e, ?_, ?_⟩
            · intro p hp
              rcases List.mem_cons.mp hp with hp | hp
              · rw [hp]; rfl
              · exact hps p hp
            · simp [streamLoop, update_of_live h chunk hlive, heq]
      | Except.error e =>
          right
          exact ⟨[], e, by simp, by simp [streamLoop]⟩

/-- The command dispatch posts zero or more progress messages and then
either exactly one terminal message with no pending exception, or nothing
more with a pending exception. -/
theorem dispatch_shape (m : InMsg) :
    (∃ ps t, dispatch m = (ps ++ [t], none) ∧ (∀ p ∈ ps, p.isProgress = true) ∧
      t.isProgress = false) ∨
    (∃ ps e, dispatch m = (ps, some e) ∧ (∀ p ∈ ps, p.isProgress = true)) := by
  rw [dispatch]
  split
  · -- CHECK_INTEGRITY_STREAM
    split
    · rename_i f hf
      rcases streamLoop_shape f.size f.reads VeghStreamingHasher.new 0 rfl
        with ⟨ps, d, hps, heq⟩ | ⟨ps, e, hps, heq⟩
      · exact Or.inl ⟨ps, WMsg.resultIntegrity d, heq, hps, rfl⟩
      · exact Or.inr ⟨ps, e, heq, hps⟩
    · exact Or.inr ⟨[], typeErrorMessage, rfl, by simp⟩
  · -- GET_METADATA
    split
    · rename_i f
      rw [handleMetadata]
      split
      · exact Or.inr ⟨[], _, rfl, by simp⟩
      · split
        · exact Or.inl ⟨[], _, rfl, by simp, rfl⟩
        · exact Or.inr ⟨[], _, rfl, by simp⟩
    · exact Or.inr ⟨[], typeErrorMessage, rfl, by simp⟩
  · -- LIST_FILES
    split
    · rename_i f
      rw [handleListFiles]
      split
      · exact Or.inr ⟨[], _, rfl, by simp⟩
      · split
        · exact Or.inl ⟨[], _, rfl, by simp, rfl⟩
        · exact Or.inr ⟨[], _, rfl, by simp⟩
    · exact Or.inr ⟨[], typeErrorMessage, rfl, by simp⟩
  · -- CHECK_CACHE
    split
    · exact Or.inl ⟨[], _, rfl, by simp, rfl⟩
    · exact Or.inr ⟨[], _, rfl, by simp⟩
  · -- GET_FILE_CONTENT
    split
    · rename_i f p
      rw [handleGetFileContent]
      split
      · exact Or.inr ⟨[], _, rfl, by simp⟩
      · split
        · exact Or.inl ⟨[], _, rfl, by simp, rfl⟩
        · exact Or.inr ⟨[], _, rfl, by simp⟩
    · exact Or.inr ⟨[], typeErrorMessage, rfl, by simp⟩
  · -- unknown command
    exact Or.inl ⟨[], _, rfl, by simp, rfl⟩

/-- C4: after initialization, every received message produces exactly one
terminal response — the recognized command's single result message, or a
single ERROR (also for unknown commands and for exceptions thrown while
handling) — preceded by zero or more PROGRESS messages. -/
theorem c4_one_terminal_response (m : InMsg) :
    ∃ ps t, onmessage true m = ps ++ [t] ∧ (∀ p ∈ ps, p.isProgress = true) ∧
      t.isProgress = false := by
  rcases dispatch_shape m with ⟨ps, t, hd, hps, ht⟩ | ⟨ps, e, hd, hps⟩
  · exact ⟨ps, t, by simp [onmessage, hd], hps, ht⟩
  · exact ⟨ps, WMsg.error e, by simp [onmessage, hd], hps, rfl⟩

/-- The PROGRESS values posted by the stream loop are the running byte
totals of the successfully read chunks, scaled by 100 / totalBytes. -/
theorem streamLoop_progress (total : Nat) (reads : List (Except String (List Nat))) :
    ∀ (h : VeghStreamingHasher) (loaded : Nat), h.consumed = false →
      progressValues (streamLoop total reads h loaded).1 =
        (runningTotals loaded (okLens reads)).map
          (fun L : Nat => ((L : ℚ) / (total : ℚ)) * 100) := by
  induction reads with
  | nil =>
      intro h loaded hlive
      simp [streamLoop, VeghStreamingHasher.finalize, hlive, okLens, runningTotals,
        progressValues]
  | cons r rest ih =>
      intro h loaded hlive
      match r with
      | Except.ok chunk =>
          simp only [streamLoop, update_of_live h chunk hlive]
          rw [progressValues]
          rw [ih ⟨false, hashUpdate blake3ClassAlg h.st chunk⟩ (loaded + chunk.length) rfl]
          simp [okLens, runningTotals]
      | Except.error e =>
          simp [streamLoop, progressValues, okLens, runningTotals]

/-- The head of a running-totals list is at least the start value. -/
theorem runningTotals_head_le (l : List Nat) (acc x : Nat)
    (hx : x ∈ (runningTotals acc l).head?) : acc ≤ x := by
  cases l with
  | nil => simp [runningTotals] at hx
  | cons n rest =>
      simp only [runningTotals, List.head?_cons, Option.mem_def, Option.some.injEq] at hx
      omega

/-- Running totals are monotonically non-decreasing. -/
theorem runningTotals_chain (l : List Nat) : ∀ acc, List.Chain' (· ≤ ·) (runningTotals acc l) := by
  induction l with
  | nil => intro acc; simp [runningTotals]
  | cons n rest ih =>
      intro acc
      rw [runningTotals, List.chain'_cons']
      refine ⟨?_, ih (acc + n)⟩
      intro y hy
      exact runningTotals_head_le rest (acc + n) y hy

/-- Scaling a non-decreasing list of naturals by a non-negative rational
factor keeps it non-decreasing. -/
theorem chain_map_scale (l : List Nat) (t : ℚ) (ht : 0 ≤ t)
    (hc : List.Chain' (· ≤ ·) l) :
    List.Chain' (· ≤ ·) (l.map (fun L : Nat => ((L : ℚ) / t) * 100)) := by
  refine List.chain'_map_of_chain' (fun L : Nat => ((L : ℚ) / t) * 100) ?_ hc
  intro a b hab
  have hcast : (a : ℚ) ≤ (b : ℚ) := by exact_mod_cast hab
  have h1 : (a : ℚ) / t ≤ (b : ℚ) / t := div_le_div_of_nonneg_right hcast ht
  have h100 : (0 : ℚ) ≤ 100 := by norm_num
  exact mul_le_mul_of_nonneg_right h1 h100

/-- C5: during one CHECK_INTEGRITY_STREAM operation every PROGRESS message
carries `bytesConsumed / totalBytes * 100` (the running totals of the chunks
consumed so far) and the sequence of emitted progress values is
monotonically non-decreasing. -/
theorem c5_progress_formula_monotone (f : VFile) (ocs : Option Nat) :
    progressValues (handleIntegrityStream f ocs).1 =
      (runningTotals 0 (okLens f.reads)).map
        (fun L : Nat => ((L : ℚ) / (f.size : ℚ)) * 100) ∧
    List.Chain' (· ≤ ·) (progressValues (handleIntegrityStream f ocs).1) := by
  have h1 : handleIntegrityStream f ocs = streamLoop f.size f.reads VeghStreamingHasher.new 0 :=
    rfl
  have h2 := streamLoop_progress f.size f.reads VeghStreamingHasher.new 0 rfl
  rw [h1]
  refine ⟨h2, ?_⟩
  rw [h2]
  exact chain_map_scale _ _ (Nat.cast_nonneg f.size) (runningTotals_chain _ 0)

/-- A failing read makes the stream loop end with a pending exception. -/
theorem streamLoop_fails_of_bad_read (total : Nat)
    (reads : List (Except String (List Nat))) :
    ∀ (h : VeghStreamingHasher) (loaded : Nat), h.consumed = false →
      (∃ e, Except.error e ∈ reads) → (streamLoop total reads h loaded).2.isSome = true := by
  induction reads with
  | nil =>
      intro h loaded hlive hfail
      rcases hfail with ⟨e, he⟩
      exact absurd he (List.not_mem_nil _)
  | cons r rest ih =>
      intro h loaded hlive hfail
      match r with
      | Except.ok chunk =>
          rcases hfail with ⟨e, he⟩
          rcases List.mem_cons.mp he with hbad | hin
          · exact Except.noConfusion hbad
          · simp only [streamLoop, update_of_live h chunk hlive]
            exact ih ⟨false, hashUpdate blake3ClassAlg h.st chunk⟩ (loaded + chunk.length) rfl
              ⟨e, hin⟩
      | Except.error e' =>
          simp [streamLoop]

/-- C7: if reading fails partway through CHECK_INTEGRITY_STREAM, the worker
never emits a RESULT_INTEGRITY message, so abandoning the in-progress hash
has no observable side effect and no partial digest is ever presented as
valid. -/
theorem c7_no_result_on_failure (f : VFile) (ocs : Option Nat)
    (co ca : Option VeghCache) (pa : Option String) (si mo : Option Int)
    (hfail : ∃ e, Except.error e ∈ f.reads) :
    ∀ d, WMsg.resultIntegrity d ∉
      onmessage true ⟨"CHECK_INTEGRITY_STREAM", ⟨some f, ocs, co, ca, pa, si, mo⟩⟩ := by
  intro d
  have hd : dispatch ⟨"CHECK_INTEGRITY_STREAM", ⟨some f, ocs, co, ca, pa, si, mo⟩⟩ =
      streamLoop f.size f.reads VeghStreamingHasher.new 0 := rfl
  rcases streamLoop_shape f.size f.reads VeghStreamingHasher.new 0 rfl
    with ⟨ps, d', hps, heq⟩ | ⟨ps, e, hps, heq⟩
  · have hsome := streamLoop_fails_of_bad_read f.size f.reads VeghStreamingHasher.new 0 rfl hfail
    rw [heq] at hsome
    simp at hsome
  · rw [onmessage, if_pos rfl, hd, heq]
    intro hmem
    rcases List.mem_append.mp hmem with hin | hin
    · have := hps _ hin
      simp [WMsg.isProgress] at this
    · simp at hin

/-- A file whose very first stream read fails. -/
def failFile : VFile := ⟨10, [Except.error "read failed"], Except.ok []⟩

/-- Witness for C7 at a file whose stream read fails. -/
theorem c7_no_result_on_failure_witness :
    (∃ e, Except.error e ∈ failFile.reads) ∧
      ∀ d, WMsg.resultIntegrity d ∉
        onmessage true ⟨"CHECK_INTEGRITY_STREAM",
          ⟨some failFile, none, none, none, none, none, none⟩⟩ :=
  ⟨⟨"read failed", by simp [failFile]⟩,
    c7_no_result_on_failure failFile none none none none none none
      ⟨"read failed", by simp [failFile]⟩⟩

/-- A CHECK_CACHE message whose payload has the claimed shape, carrying the
cache under the field name `cache` (and no `cacheObj`). -/
def cacheFieldMsg : InMsg :=
  ⟨"CHECK_CACHE", ⟨none, none, none, some scenarioCache, some "x.txt", some 100, some 5000⟩⟩

/-- C8 counterexample: the worker reads `payload.cacheObj` (worker.js:46),
not `payload.cache`.  A payload of the claimed shape {cache, path, size,
modified} — whose cache would be a hit — is answered with ERROR, not with
RESULT_CACHE_HIT. -/
theorem c8_counterexample :
    check_cache_hit scenarioCache "x.txt" 100 5000 = true ∧
      onmessage true cacheFieldMsg = [WMsg.error (errMessage VeghError.InvalidUsage)] := by
  constructor
  · rfl
  · rfl

/-- C8 amended: the worker's CHECK_CACHE command reads the payload fields
`cacheObj`, `path`, `size` and `modified`, and responds with a
RESULT_CACHE_HIT message whose payload is the boolean
`check_cache_hit(cacheObj, path, size, modified)`. -/
theorem c8_amended_cacheObj_field (c : VeghCache) (p : String) (s t : Int)
    (f : Option VFile) (cs : Option Nat) (ca : Option VeghCache) :
    onmessage true ⟨"CHECK_CACHE", ⟨f, cs, some c, ca, some p, some s, some t⟩⟩ =
      [WMsg.resultCacheHit (check_cache_hit c p s t)] := rfl

/-- C9: the CHECK_INTEGRITY_STREAM handler binds the payload's chunkSize
(defaulting to 5 MiB when absent) but never uses it, so for every file and
every pair of chunkSize values the handler's output — and hence the worker's
whole response — is identical. -/
theorem c9_chunkSize_unused (f : VFile) (cs1 cs2 : Option Nat)
    (co ca : Option VeghCache) (pa : Option String) (si mo : Option Int) :
    handleIntegrityStream f cs1 = handleIntegrityStream f cs2 ∧
      onmessage true ⟨"CHECK_INTEGRITY_STREAM", ⟨some f, cs1, co, ca, pa, si, mo⟩⟩ =
        onmessage true ⟨"CHECK_INTEGRITY_STREAM", ⟨some f, cs2, co, ca, pa, si, mo⟩⟩ :=
  ⟨rfl, rfl⟩

/-- C10: every message received before WASM initialization has completed is
answered with the single not-ready ERROR response; no command handler output
is produced, whatever the command. -/
theorem c10_not_ready_single_error (m : InMsg) :
    onmessage false m = [WMsg.error "Core not ready yet. Please wait."] := rfl
